import Mathlib

/-!
A shallow embedding of `src/tree-init/tree_builder.py`, whose single function
`build_conversation_graph` loads an annotation file and an utterance corpus,
selects the annotated utterances together with their in-corpus parents, builds
a directed graph with `reply` edges, and binds attack/support/neutral relation
labels to edges.  File reading and JSON decoding are abstracted by the
`Source` type; everything past decoding mirrors the Python statement by
statement.  Logging has no effect on the result and is omitted; the three
diagnostic counters the code maintains are exposed in `BuildOutcome`.
-/

namespace TreeBuilder

/-- A raw JSON identifier value.  The source coerces every identifier with
`str(...)`; in the data identifiers are strings or integers. -/
inductive RawId where
  | s (v : String)
  | i (v : Int)
deriving DecidableEq

/-- Python `str(...)` applied to a raw identifier. -/
def pyStr : RawId → String
  | .s v => v
  | .i v => toString v

/-- Value of the optional `meta` field of an utterance record: `dict n` is a
mapping with `n` entries (line 160 only tests `isinstance(..., dict)`, so the
entries themselves are irrelevant), `other` is a present non-mapping value. -/
inductive MetaVal where
  | dict (entries : Nat)
  | other
deriving DecidableEq

/-- An utterance record (one JSON object of the corpus file) restricted to the
fields `build_conversation_graph` reads.  `none` models an absent key. -/
structure UttRecord where
  id? : Option RawId
  replyTo : Option RawId
  text : Option String
  user : Option String
  root : Option String
  timestamp : Option Int
  score : Option Int
  meta : Option MetaVal
deriving DecidableEq

/-- An annotation record (one JSON object of the annotation file) restricted
to the fields the code reads. -/
structure AnnRecord where
  id? : Option RawId
  reply_relation : Option String
  reply_to_text : Option String
deriving DecidableEq

/-- An element of the decoded annotation JSON list: a mapping, or any
non-mapping value (on which `item.get('id')` raises `AttributeError`). -/
inductive AnnItem where
  | dict (r : AnnRecord)
  | nondict
deriving DecidableEq

/-- An element of the decoded utterance JSON list. -/
inductive UttItem where
  | dict (r : UttRecord)
  | nondict
deriving DecidableEq

/-- Outcome of opening and JSON-decoding one input file: the file is absent
(`FileNotFoundError`), undecodable (`JSONDecodeError`), decodes to something
other than a list, or decodes to a list of items. -/
inductive Source (α : Type) where
  | missing
  | undecodable
  | nonList
  | list (items : List α)
deriving DecidableEq

/-- An annotation kept by the loader, after `item['id'] = str(item_id)`
(line 45) has been applied. -/
structure LoadedAnn where
  id : String
  reply_relation : Option String
  reply_to_text : Option String
deriving DecidableEq

/-- Lines 41-50: the loop over the decoded annotation list.  `item.get('id')`
is evaluated before `isinstance(item, dict)`, so a non-mapping item raises
`AttributeError`, which the broad `except Exception` handler at line 61 turns
into a `None` return for the whole call (modelled by `none`).  A mapping item
without an `id` (or with `id` null) is skipped. -/
def loadAnnList : List AnnItem → Option (List LoadedAnn)
  | [] => some []
  | AnnItem.nondict :: _ => none
  | AnnItem.dict r :: rest =>
    match r.id? with
    | none => loadAnnList rest
    | some rid =>
      (loadAnnList rest).map fun tail =>
        { id := pyStr rid, reply_relation := r.reply_relation,
          reply_to_text := r.reply_to_text } :: tail

/-- Lines 36-63: the annotation-loading stage.  A file that decodes to a
non-list is logged and treated as an empty annotation list (lines 52-54). -/
def annLoad : Source AnnItem → Option (List LoadedAnn)
  | .missing => none
  | .undecodable => none
  | .nonList => some []
  | .list items => loadAnnList items

/-- Lines 76-81: the loop over the decoded utterance list.  Non-mapping items
raise `AttributeError` (caught at line 91, whole call returns `None`); mapping
items without an `id` are silently dropped; otherwise
`all_utterances_dict[str(id)] = item`.  The result is the ordered assignment
list of that dict. -/
def loadUttList : List UttItem → Option (List (String × UttRecord))
  | [] => some []
  | UttItem.nondict :: _ => none
  | UttItem.dict r :: rest =>
    match r.id? with
    | none => loadUttList rest
    | some rid => (loadUttList rest).map fun tail => (pyStr rid, r) :: tail

/-- Lines 73-97: the utterance-loading stage (a non-list file is fatal here,
line 83). -/
def uttLoad : Source UttItem → Option (List (String × UttRecord))
  | .missing => none
  | .undecodable => none
  | .nonList => none
  | .list items => loadUttList items

/-- Lookup in a Python dict represented by its ordered assignment list: the
last assignment to a key wins. -/
def lastVal {α : Type} (d : List (String × α)) (k : String) : Option α :=
  d.foldl (fun acc p => if p.1 = k then some p.2 else acc) none

/-- The key set of a Python dict represented by its assignment list. -/
def dictKeys {α : Type} (d : List (String × α)) : Finset String :=
  (d.map Prod.fst).toFinset

/-- Line 47: the set `annotation_ids`. -/
def annIdSet (raw : List LoadedAnn) : Finset String :=
  (raw.map LoadedAnn.id).toFinset

/-- Line 103: `required_node_ids = annotation_ids.intersection(all_utterances_dict.keys())`. -/
def requiredNodeIds (raw : List LoadedAnn) (pairs : List (String × UttRecord)) :
    Finset String :=
  annIdSet raw ∩ dictKeys pairs

/-- Lines 111-113: the `reply-to` reference of the record stored at `nid`,
coerced with `str(...)`. -/
def parentStr (pairs : List (String × UttRecord)) (nid : String) : Option String :=
  ((lastVal pairs nid).bind UttRecord.replyTo).map pyStr

/-- Lines 107-116: `parent_ids_to_add`, the in-corpus parents of the required
nodes. -/
def parentIdsToAdd (raw : List LoadedAnn) (pairs : List (String × UttRecord)) :
    Finset String :=
  (requiredNodeIds raw pairs).biUnion fun nid =>
    match parentStr pairs nid with
    | some p => if p ∈ dictKeys pairs then {p} else ∅
    | none => ∅

/-- Line 119: `final_node_ids = required_node_ids.union(parent_ids_to_add)`. -/
def finalNodeIds (raw : List LoadedAnn) (pairs : List (String × UttRecord)) :
    Finset String :=
  requiredNodeIds raw pairs ∪ parentIdsToAdd raw pairs

/-- A node attribute value: the code stores strings and numbers
(`timestamp` falls back to the empty string when absent, line 170). -/
inductive AttrVal where
  | s (v : String)
  | i (v : Int)
deriving DecidableEq

/-- Python `str(...)` on a boolean (line 164 stores `str(delta_awarded)`). -/
def pyStrBool (b : Bool) : String := if b then "True" else "False"

/-- Python's `needle in hay` on strings, as a scan over character lists. -/
def hasSub (needle : List Char) : List Char → Bool
  | [] => needle.isEmpty
  | h :: t => needle.isPrefixOf (h :: t) || hasSub needle t

/-- Lines 158-163: delta detection.  `Char.ofNat 8710` is the delta glyph the
source writes as a unicode escape; the second test lowercases the text and
looks for the substring `!delta`.  The check runs only when the record has a
`meta` key whose value is a mapping (`isinstance(utt_data['meta'], dict)`). -/
def deltaAwarded (u : UttRecord) : Bool :=
  match u.meta with
  | some (MetaVal.dict _) =>
      (u.text.getD "").toList.contains (Char.ofNat 8710) ||
        hasSub "!delta".toList ((u.text.getD "").toList.map Char.toLower)
  | _ => false

/-- The attributes the code attaches to a node (lines 166-172). -/
structure NodeAttrs where
  text : String
  user : String
  root : String
  timestamp : AttrVal
  score : Int
  delta : String
deriving DecidableEq

/-- Lines 151-172: the attribute record built for one selected utterance. -/
def mkNodeAttrs (u : UttRecord) : NodeAttrs :=
  { text := u.text.getD ""
    user := u.user.getD ""
    root := u.root.getD ""
    timestamp := match u.timestamp with | some t => AttrVal.i t | none => AttrVal.s ""
    score := u.score.getD 0
    delta := pyStrBool (deltaAwarded u) }

/-- The directed attributed graph: nodes with their attribute records, and
edges `(parent, child, relation)`. -/
structure Graph where
  nodes : Finset (String × NodeAttrs)
  edges : Finset (String × String × String)
deriving DecidableEq

/-- The node contributed for id `nid` (lines 150-172); `lastVal` cannot miss
because `nid` is drawn from `final_node_ids ⊆ dictKeys pairs`. -/
def nodeEntry (pairs : List (String × UttRecord)) (nid : String) :
    Finset (String × NodeAttrs) :=
  match lastVal pairs nid with
  | some u => {(nid, mkNodeAttrs u)}
  | none => ∅

/-- Lines 149-173: the node set of the graph. -/
def graphNodes (raw : List LoadedAnn) (pairs : List (String × UttRecord)) :
    Finset (String × NodeAttrs) :=
  (finalNodeIds raw pairs).biUnion (nodeEntry pairs)

/-- Lines 178-186: the `(parent, child)` pair contributed by the record of
`nid` — an edge is added only when the coerced parent id is itself in
`final_node_ids`. -/
def edgePairEntry (raw : List LoadedAnn) (pairs : List (String × UttRecord))
    (nid : String) : Finset (String × String) :=
  match parentStr pairs nid with
  | some p => if p ∈ finalNodeIds raw pairs then {(p, nid)} else ∅
  | none => ∅

/-- The set of `(parent, child)` pairs of the graph's edges. -/
def edgePairSet (raw : List LoadedAnn) (pairs : List (String × UttRecord)) :
    Finset (String × String) :=
  (finalNodeIds raw pairs).biUnion (edgePairEntry raw pairs)

/-- Line 185: every edge is created with `relation='reply'`. -/
def initialEdges (raw : List LoadedAnn) (pairs : List (String × UttRecord)) :
    Finset (String × String × String) :=
  (edgePairSet raw pairs).image fun pc => (pc.1, pc.2, "reply")

/-- Line 126: `relation_map = {'a': 'attack', 's': 'support', 'n': 'neutral'}`
read through `.get`. -/
def relation_map : String → Option String
  | "a" => some "attack"
  | "s" => some "support"
  | "n" => some "neutral"
  | _ => none

/-- Assignment `d[k] = v` on a Python dict held as its ordered key-value list:
an existing key keeps its position and gets the new value, a new key is
appended. -/
def dictInsert {α : Type} (d : List (String × α)) (k : String) (v : α) :
    List (String × α) :=
  if d.any fun p => p.1 == k then
    d.map fun p => if p.1 = k then (k, v) else p
  else d ++ [(k, v)]

/-- Lines 129-141: one iteration of the preparation loop.  The state is
`(annotations_for_graph, invalid_relation_count)`; an annotation whose target
is outside `final_node_ids` is ignored; a mappable code is replaced by the
full relation name (line 136); an unmappable one is stored unchanged and
counted (lines 139-141). -/
def prepStep (final : Finset String) (acc : List (String × LoadedAnn) × Nat)
    (item : LoadedAnn) : List (String × LoadedAnn) × Nat :=
  if item.id ∈ final then
    match item.reply_relation.bind relation_map with
    | some m =>
        (dictInsert acc.1 item.id { item with reply_relation := some m }, acc.2)
    | none => (dictInsert acc.1 item.id item, acc.2 + 1)
  else acc

/-- Lines 127-143: build `annotations_for_graph` (a dict keyed by annotation
id) and `invalid_relation_count`. -/
def prepAnn (raw : List LoadedAnn) (final : Finset String) :
    List (String × LoadedAnn) × Nat :=
  raw.foldl (prepStep final) ([], 0)

/-- The `(parent, child)` pairs present in an edge set (`G.has_edge`). -/
def graphPairs (E : Finset (String × String × String)) : Finset (String × String) :=
  E.image fun e => (e.1, e.2.1)

/-- Line 212: overwrite the `relation` attribute of the edge `(p, c)`. -/
def setRel (E : Finset (String × String × String)) (p c r : String) :
    Finset (String × String × String) :=
  E.image fun e => if e.1 = p ∧ e.2.1 = c then (p, c, r) else e

/-- Lines 193-221: one iteration of the ASN loop.  The state is
`(edge set, asn_added_count, asn_missing_edge_count)`.  An entry whose stored
relation value is not one of the three full names is skipped outright
(line 196); otherwise the parent reference is resolved and the edge updated
when `parent_id` is truthy (non-`None`, non-empty) and the edge exists, else
the missing-edge counter is incremented (both `elif` and `else`, lines
214-221). -/
def asnStep (look : String → Option UttRecord)
    (st : Finset (String × String × String) × Nat × Nat)
    (pr : String × LoadedAnn) :
    Finset (String × String × String) × Nat × Nat :=
  match pr.2.reply_relation with
  | none => st
  | some r =>
    if r = "attack" ∨ r = "support" ∨ r = "neutral" then
      match ((look pr.1).bind UttRecord.replyTo).map pyStr with
      | some p =>
        if p ≠ "" ∧ (p, pr.1) ∈ graphPairs st.1 then
          (setRel st.1 p pr.1 r, st.2.1 + 1, st.2.2)
        else (st.1, st.2.1, st.2.2 + 1)
      | none => (st.1, st.2.1, st.2.2 + 1)
    else st

/-- Line 123: the dict `utterances_for_graph`, the utterance dict restricted
to `final_node_ids`. -/
def uttFor (raw : List LoadedAnn) (pairs : List (String × UttRecord))
    (k : String) : Option UttRecord :=
  if k ∈ finalNodeIds raw pairs then lastVal pairs k else none

/-- The graph together with the three diagnostic counters the code logs. -/
structure BuildOutcome where
  graph : Graph
  invalid_relation_count : Nat
  asn_added_count : Nat
  asn_missing_edge_count : Nat
deriving DecidableEq

/-- Lines 101-227: the assembler run on successfully loaded data. -/
def assemble (raw : List LoadedAnn) (pairs : List (String × UttRecord)) :
    BuildOutcome :=
  let pa := prepAnn raw (finalNodeIds raw pairs)
  let st := pa.1.foldl (asnStep (uttFor raw pairs)) (initialEdges raw pairs, 0, 0)
  { graph := { nodes := graphNodes raw pairs, edges := st.1 }
    invalid_relation_count := pa.2
    asn_added_count := st.2.1
    asn_missing_edge_count := st.2.2 }

/-- Lines 9-228 with the counters kept: load the two sources (each failure
returns `none`), abort when no annotation id was found (line 65) or when no
utterance was loaded (line 95), then assemble. -/
def buildOutcome (annSrc : Source AnnItem) (uttSrc : Source UttItem) :
    Option BuildOutcome :=
  match annLoad annSrc with
  | none => none
  | some raw =>
    if annIdSet raw = ∅ then none
    else
      match uttLoad uttSrc with
      | none => none
      | some pairs =>
        if pairs = [] then none
        else some (assemble raw pairs)

/-- The function as the source exposes it: only the graph is returned, the
counters are merely logged. -/
def build_conversation_graph (annSrc : Source AnnItem) (uttSrc : Source UttItem) :
    Option Graph :=
  (buildOutcome annSrc uttSrc).map BuildOutcome.graph

/-- Graph of an optional outcome (empty graph when the build failed). -/
def outGraph : Option BuildOutcome → Graph
  | some o => o.graph
  | none => { nodes := ∅, edges := ∅ }

/-- `invalid_relation_count` of an optional outcome. -/
def outInvalid : Option BuildOutcome → Nat
  | some o => o.invalid_relation_count
  | none => 0

/-- `asn_missing_edge_count` of an optional outcome. -/
def outMissing : Option BuildOutcome → Nat
  | some o => o.asn_missing_edge_count
  | none => 0

/-- The id set of a graph's nodes. -/
def nodeIdsOf (g : Graph) : Finset String := g.nodes.image Prod.fst

/-- The delta attributes carried by the nodes with a given id. -/
def nodeDeltas (g : Graph) (nid : String) : Finset String :=
  (g.nodes.filter fun pr => pr.1 = nid).image fun pr => pr.2.delta

/-- The relation values an edge can carry. -/
def quadRel (r : String) : Prop :=
  r = "reply" ∨ r = "attack" ∨ r = "support" ∨ r = "neutral"

/-- At most one edge per `(parent, child)` pair. -/
def edgeFun (E : Finset (String × String × String)) : Prop :=
  ∀ e₁ ∈ E, ∀ e₂ ∈ E, e₁.1 = e₂.1 → e₁.2.1 = e₂.2.1 → e₁ = e₂

/-- Whether a stored relation value passes the membership check at line 196
(`relation not in ['attack', 'support', 'neutral']` skips the entry). -/
def trioB : Option String → Bool
  | some r => r == "attack" || r == "support" || r == "neutral"
  | none => false

/-- Whether, per lines 199-203, the entry for child `c` finds its edge in the
pair set `S`: the parent reference of `c` resolves, the coerced parent id is
truthy (non-empty), and the pair `(parent, c)` is an edge. -/
def findsEdgeB (look : String → Option UttRecord) (S : Finset (String × String))
    (c : String) : Bool :=
  match ((look c).bind UttRecord.replyTo).map pyStr with
  | some p => (!(p == "")) && decide ((p, c) ∈ S)
  | none => false

/-- Line 136: the stored form of a processed annotation — the relation code is
replaced by the mapped full name when the code maps, else kept as is. -/
def storedAnn (a : LoadedAnn) : LoadedAnn :=
  match a.reply_relation.bind relation_map with
  | some m => { a with reply_relation := some m }
  | none => a

/-- The delta policy as the specification words it, for comparison with
`deltaAwarded`: the text check is evaluated only when the record carries a
NON-empty metadata mapping; otherwise the flag is false. -/
def deltaClaimed (u : UttRecord) : Bool :=
  match u.meta with
  | some (MetaVal.dict (Nat.succ _)) =>
      (u.text.getD "").toList.contains (Char.ofNat 8710) ||
        hasSub "!delta".toList ((u.text.getD "").toList.map Char.toLower)
  | _ => false

/-- Lines 150-172 run as a loop over an enumeration `l` of the node-id set:
each iteration adds one node with its attributes (`G.add_node`). -/
def addNodesLoop (pairs : List (String × UttRecord)) (l : List String) :
    Finset (String × NodeAttrs) :=
  l.foldl (fun G nid => G ∪ nodeEntry pairs nid) ∅

/-- Lines 178-186 run as a loop over an enumeration `l` of the node-id set:
each iteration adds the node's reply edge when its coerced parent id is also
selected (`G.add_edge(parent_id, node_id, relation='reply')`). -/
def addEdgesLoop (raw : List LoadedAnn) (pairs : List (String × UttRecord))
    (l : List String) : Finset (String × String × String) :=
  l.foldl (fun E nid => E ∪ (edgePairEntry raw pairs nid).image
    fun pc => (pc.1, pc.2, "reply")) ∅

/-! ### Concrete inputs used to instantiate the theorems -/

/-- Corpus record A: a thread root. -/
def uttA : UttRecord :=
  { id? := some (.s "A"), replyTo := none, text := some "view", user := some "op",
    root := some "A", timestamp := some 1, score := some 3, meta := none }

/-- Corpus record B: replies to A. -/
def uttB : UttRecord :=
  { id? := some (.s "B"), replyTo := some (.s "A"), text := some "counter",
    user := some "u1", root := some "A", timestamp := some 2, score := some 2,
    meta := none }

/-- Corpus record C: replies to B. -/
def uttC : UttRecord :=
  { id? := some (.s "C"), replyTo := some (.s "B"), text := some "rebuttal",
    user := some "op", root := some "A", timestamp := some 3, score := none,
    meta := none }

/-- The three-utterance corpus {A: root, B: reply-to A, C: reply-to B}. -/
def exUttSrc : Source UttItem := .list [.dict uttA, .dict uttB, .dict uttC]

/-- The single annotation {C: relation "a"}. -/
def exAnnSrc : Source AnnItem :=
  .list [.dict { id? := some (.s "C"), reply_relation := some "a",
                 reply_to_text := none }]

/-- What `annLoad exAnnSrc` produces. -/
def exRaw : List LoadedAnn :=
  [{ id := "C", reply_relation := some "a", reply_to_text := none }]

/-- What `uttLoad exUttSrc` produces. -/
def exPairs : List (String × UttRecord) := [("A", uttA), ("B", uttB), ("C", uttC)]

/-- Corpus record B as a root (for the two-utterance corpus). -/
def uttBroot : UttRecord :=
  { id? := some (.s "B"), replyTo := none, text := some "b", user := none,
    root := none, timestamp := none, score := none, meta := none }

/-- Corpus record C replying to B (for the two-utterance corpus). -/
def uttCreply : UttRecord :=
  { id? := some (.s "C"), replyTo := some (.s "B"), text := some "c",
    user := none, root := none, timestamp := none, score := none, meta := none }

/-- Two-utterance corpus {B: root, C: reply-to B}. -/
def bcUttSrc : Source UttItem := .list [.dict uttBroot, .dict uttCreply]

/-- What `uttLoad bcUttSrc` produces. -/
def bcPairs : List (String × UttRecord) := [("B", uttBroot), ("C", uttCreply)]

/-- An annotation of C whose raw relation code is the full name "attack",
which is outside the `{a, s, n}` vocabulary of `relation_map`. -/
def atkAnnSrc : Source AnnItem :=
  .list [.dict { id? := some (.s "C"), reply_relation := some "attack",
                 reply_to_text := none }]

/-- What `annLoad atkAnnSrc` produces. -/
def atkRaw : List LoadedAnn :=
  [{ id := "C", reply_relation := some "attack", reply_to_text := none }]

/-- An annotation of C with the unknown relation code "x". -/
def xAnnSrc : Source AnnItem :=
  .list [.dict { id? := some (.s "C"), reply_relation := some "x",
                 reply_to_text := none }]

/-- What `annLoad xAnnSrc` produces. -/
def xRaw : List LoadedAnn :=
  [{ id := "C", reply_relation := some "x", reply_to_text := none }]

/-- Corpus record C as a root with no parent reference. -/
def uttCroot : UttRecord :=
  { id? := some (.s "C"), replyTo := none, text := some "c", user := none,
    root := none, timestamp := none, score := none, meta := none }

/-- One-utterance corpus: C is a root with no parent reference. -/
def rootOnlyUttSrc : Source UttItem := .list [.dict uttCroot]

/-- What `uttLoad rootOnlyUttSrc` produces. -/
def rootOnlyPairs : List (String × UttRecord) := [("C", uttCroot)]

/-- The record of an utterance carrying an EMPTY metadata mapping and a
`!delta` command in its text. -/
def uttEmptyMeta : UttRecord :=
  { id? := some (.s "D"), replyTo := some (.s "P"), text := some "ok !DELTA thanks",
    user := none, root := none, timestamp := none, score := none,
    meta := some (MetaVal.dict 0) }

/-- Corpus record P, a plain root. -/
def uttProot : UttRecord :=
  { id? := some (.s "P"), replyTo := none, text := some "p", user := none,
    root := none, timestamp := none, score := none, meta := none }

/-- Corpus {P: root, D: reply-to P with empty meta and delta text}. -/
def emptyMetaUttSrc : Source UttItem := .list [.dict uttProot, .dict uttEmptyMeta]

/-- What `uttLoad emptyMetaUttSrc` produces. -/
def emptyMetaPairs : List (String × UttRecord) := [("P", uttProot), ("D", uttEmptyMeta)]

/-- The single annotation {D: relation "a"}. -/
def dAnnSrc : Source AnnItem :=
  .list [.dict { id? := some (.s "D"), reply_relation := some "a",
                 reply_to_text := none }]

/-- What `annLoad dAnnSrc` produces. -/
def dRaw : List LoadedAnn :=
  [{ id := "D", reply_relation := some "a", reply_to_text := none }]

/-- One-utterance corpus whose only record replies to itself. -/
def selfUttSrc : Source UttItem := .list [.dict
    { id? := some (.s "S"), replyTo := some (.s "S"), text := some "s",
      user := none, root := none, timestamp := none, score := none, meta := none }]

/-- The single annotation {S: relation "a"}. -/
def selfAnnSrc : Source AnnItem :=
  .list [.dict { id? := some (.s "S"), reply_relation := some "a",
                 reply_to_text := none }]

/-- An annotation list holding a non-mapping item followed by a valid item. -/
def mixedAnnSrc : Source AnnItem := .list [.nondict,
  .dict { id? := some (.s "C"), reply_relation := some "a", reply_to_text := none }]

/-! ### Dict lemmas -/

/-- `o` unless `o` is `none`, in which case `a`. -/
def orDefault {α : Type} (o : Option α) (a : Option α) : Option α :=
  match o with
  | some v => some v
  | none => a

theorem lastVal_acc {α : Type} (k : String) (d : List (String × α)) :
    ∀ a : Option α,
      d.foldl (fun acc p => if p.1 = k then some p.2 else acc) a =
        orDefault (lastVal d k) a := by
  induction d with
  | nil => intro a; rfl
  | cons p d ih =>
    intro a
    rw [List.foldl_cons, ih]
    show _ = orDefault (lastVal (p :: d) k) a
    have hl : lastVal (p :: d) k =
        orDefault (lastVal d k) (if p.1 = k then some p.2 else none) := by
      show List.foldl _ (if p.1 = k then some p.2 else none) d = _
      exact ih _
    rw [hl]
    cases lastVal d k with
    | some v => rfl
    | none =>
      by_cases h : p.1 = k
      · simp [h, orDefault]
      · simp [h, orDefault]

theorem lastVal_cons {α : Type} (k : String) (p : String × α) (d : List (String × α)) :
    lastVal (p :: d) k = orDefault (lastVal d k) (if p.1 = k then some p.2 else none) := by
  show List.foldl _ (if p.1 = k then some p.2 else none) d = _
  exact lastVal_acc k d _

theorem lastVal_mem {α : Type} (d : List (String × α)) (k : String) :
    (∃ u, lastVal d k = some u) ↔ ∃ pr ∈ d, pr.1 = k := by
  induction d with
  | nil => simp [lastVal]
  | cons p d ih =>
    rw [lastVal_cons]
    cases hlv : lastVal d k with
    | some v =>
      simp only [orDefault]
      constructor
      · intro _
        obtain ⟨pr, hpr, hk⟩ := ih.mp ⟨v, hlv⟩
        exact ⟨pr, List.mem_cons_of_mem p hpr, hk⟩
      · intro _; exact ⟨v, rfl⟩
    | none =>
      simp only [orDefault]
      by_cases h : p.1 = k
      · rw [if_pos h]
        constructor
        · intro _; exact ⟨p, List.mem_cons_self p d, h⟩
        · intro _; exact ⟨p.2, rfl⟩
      · rw [if_neg h]
        constructor
        · rintro ⟨u, hu⟩; cases hu
        · rintro ⟨pr, hpr, hk⟩
          rcases List.mem_cons.mp hpr with rfl | hpr'
          · exact absurd hk h
          · rcases ih.mpr ⟨pr, hpr', hk⟩ with ⟨u, hu⟩
            rw [hlv] at hu; cases hu

theorem mem_dictKeys {α : Type} (d : List (String × α)) (k : String) :
    k ∈ dictKeys d ↔ ∃ u, lastVal d k = some u := by
  rw [lastVal_mem]
  simp [dictKeys, List.mem_map]

/-! ### Node-selection lemmas -/

theorem mem_parentIdsToAdd (raw : List LoadedAnn) (pairs : List (String × UttRecord))
    (n : String) :
    n ∈ parentIdsToAdd raw pairs ↔
      ∃ c ∈ requiredNodeIds raw pairs,
        parentStr pairs c = some n ∧ n ∈ dictKeys pairs := by
  rw [parentIdsToAdd, Finset.mem_biUnion]
  constructor
  · rintro ⟨c, hc, hmem⟩
    refine ⟨c, hc, ?_⟩
    cases hps : parentStr pairs c with
    | none => rw [hps] at hmem; simp at hmem
    | some p =>
      rw [hps] at hmem
      replace hmem : n ∈ (if p ∈ dictKeys pairs then ({p} : Finset String) else ∅) := hmem
      by_cases hp : p ∈ dictKeys pairs
      · rw [if_pos hp, Finset.mem_singleton] at hmem
        subst hmem
        exact ⟨rfl, hp⟩
      · rw [if_neg hp] at hmem; simp at hmem
  · rintro ⟨c, hc, hps, hp⟩
    refine ⟨c, hc, ?_⟩
    rw [hps]
    show n ∈ (if n ∈ dictKeys pairs then ({n} : Finset String) else ∅)
    rw [if_pos hp]
    exact Finset.mem_singleton_self n

theorem mem_finalNodeIds (raw : List LoadedAnn) (pairs : List (String × UttRecord))
    (n : String) :
    n ∈ finalNodeIds raw pairs ↔
      n ∈ requiredNodeIds raw pairs ∨
        ∃ c ∈ requiredNodeIds raw pairs,
          parentStr pairs c = some n ∧ n ∈ dictKeys pairs := by
  rw [finalNodeIds, Finset.mem_union, mem_parentIdsToAdd]

theorem finalNodeIds_subset (raw : List LoadedAnn) (pairs : List (String × UttRecord)) :
    finalNodeIds raw pairs ⊆ dictKeys pairs := by
  intro n hn
  rcases (mem_finalNodeIds raw pairs n).mp hn with h | ⟨_, _, _, h⟩
  · exact Finset.mem_of_mem_inter_right h
  · exact h

theorem mem_graphNodes (raw : List LoadedAnn) (pairs : List (String × UttRecord))
    (nid : String) (a : NodeAttrs) :
    (nid, a) ∈ graphNodes raw pairs ↔
      nid ∈ finalNodeIds raw pairs ∧
        ∃ u, lastVal pairs nid = some u ∧ a = mkNodeAttrs u := by
  rw [graphNodes, Finset.mem_biUnion]
  constructor
  · rintro ⟨m, hm, hmem⟩
    rw [nodeEntry] at hmem
    cases hml : lastVal pairs m with
    | none => rw [hml] at hmem; simp at hmem
    | some u =>
      rw [hml, Finset.mem_singleton] at hmem
      rw [Prod.mk.injEq] at hmem
      obtain ⟨rfl, rfl⟩ := hmem
      exact ⟨hm, u, hml, rfl⟩
  · rintro ⟨hn, u, hu, rfl⟩
    refine ⟨nid, hn, ?_⟩
    rw [nodeEntry, hu]
    exact Finset.mem_singleton_self _

theorem image_fst_graphNodes (raw : List LoadedAnn) (pairs : List (String × UttRecord)) :
    (graphNodes raw pairs).image Prod.fst = finalNodeIds raw pairs := by
  apply Finset.ext
  intro n
  rw [Finset.mem_image]
  constructor
  · rintro ⟨⟨m, a⟩, hmem, rfl⟩
    exact ((mem_graphNodes raw pairs m a).mp hmem).1
  · intro hn
    obtain ⟨u, hu⟩ := (mem_dictKeys pairs n).mp (finalNodeIds_subset raw pairs hn)
    exact ⟨(n, mkNodeAttrs u), (mem_graphNodes raw pairs n _).mpr ⟨hn, u, hu, rfl⟩, rfl⟩

theorem mem_edgePairSet (raw : List LoadedAnn) (pairs : List (String × UttRecord))
    (p c : String) :
    (p, c) ∈ edgePairSet raw pairs ↔
      c ∈ finalNodeIds raw pairs ∧ parentStr pairs c = some p ∧
        p ∈ finalNodeIds raw pairs := by
  rw [edgePairSet, Finset.mem_biUnion]
  constructor
  · rintro ⟨m, hm, hmem⟩
    rw [edgePairEntry] at hmem
    cases hps : parentStr pairs m with
    | none => rw [hps] at hmem; simp at hmem
    | some q =>
      rw [hps] at hmem
      replace hmem : (p, c) ∈
          (if q ∈ finalNodeIds raw pairs then ({(q, m)} : Finset (String × String))
           else ∅) := hmem
      by_cases hq : q ∈ finalNodeIds raw pairs
      · rw [if_pos hq, Finset.mem_singleton, Prod.mk.injEq] at hmem
        obtain ⟨rfl, rfl⟩ := hmem
        exact ⟨hm, hps, hq⟩
      · rw [if_neg hq] at hmem; simp at hmem
  · rintro ⟨hc, hps, hp⟩
    refine ⟨c, hc, ?_⟩
    rw [edgePairEntry, hps]
    show (p, c) ∈
      (if p ∈ finalNodeIds raw pairs then ({(p, c)} : Finset (String × String)) else ∅)
    rw [if_pos hp]
    exact Finset.mem_singleton_self _

theorem mem_initialEdges (raw : List LoadedAnn) (pairs : List (String × UttRecord))
    (p c r : String) :
    (p, c, r) ∈ initialEdges raw pairs ↔
      (p, c) ∈ edgePairSet raw pairs ∧ r = "reply" := by
  rw [initialEdges, Finset.mem_image]
  constructor
  · rintro ⟨⟨q, m⟩, hmem, heq⟩
    rw [Prod.mk.injEq, Prod.mk.injEq] at heq
    obtain ⟨rfl, rfl, rfl⟩ := heq
    exact ⟨hmem, rfl⟩
  · rintro ⟨hmem, rfl⟩
    exact ⟨(p, c), hmem, rfl⟩

theorem graphPairs_initialEdges (raw : List LoadedAnn) (pairs : List (String × UttRecord)) :
    graphPairs (initialEdges raw pairs) = edgePairSet raw pairs := by
  rw [graphPairs, initialEdges, Finset.image_image]
  have hid : ((fun e : String × String × String => (e.1, e.2.1)) ∘
      fun pc : String × String => (pc.1, pc.2, "reply")) = id := by
    funext pc; rfl
  rw [hid, Finset.image_id]

/-! ### ASN-phase lemmas -/

theorem setRelFun_fst (p c r : String) (e : String × String × String) :
    (if e.1 = p ∧ e.2.1 = c then (p, c, r) else e).1 = e.1 := by
  by_cases h : e.1 = p ∧ e.2.1 = c
  · rw [if_pos h]; exact h.1.symm
  · rw [if_neg h]

theorem setRelFun_child (p c r : String) (e : String × String × String) :
    (if e.1 = p ∧ e.2.1 = c then (p, c, r) else e).2.1 = e.2.1 := by
  by_cases h : e.1 = p ∧ e.2.1 = c
  · rw [if_pos h]; exact h.2.symm
  · rw [if_neg h]

theorem graphPairs_setRel (E : Finset (String × String × String)) (p c r : String) :
    graphPairs (setRel E p c r) = graphPairs E := by
  rw [graphPairs, setRel, Finset.image_image, graphPairs]
  apply Finset.image_congr
  intro e _
  show ((if e.1 = p ∧ e.2.1 = c then (p, c, r) else e).1,
        (if e.1 = p ∧ e.2.1 = c then (p, c, r) else e).2.1) = (e.1, e.2.1)
  rw [setRelFun_fst, setRelFun_child]

theorem asnStep_graphPairs (look : String → Option UttRecord)
    (st : Finset (String × String × String) × Nat × Nat) (pr : String × LoadedAnn) :
    graphPairs (asnStep look st pr).1 = graphPairs st.1 := by
  unfold asnStep
  cases pr.2.reply_relation with
  | none => rfl
  | some r =>
    dsimp only
    by_cases htrio : r = "attack" ∨ r = "support" ∨ r = "neutral"
    · rw [if_pos htrio]
      cases ((look pr.1).bind UttRecord.replyTo).map pyStr with
      | none => rfl
      | some p =>
        dsimp only
        by_cases hcond : p ≠ "" ∧ (p, pr.1) ∈ graphPairs st.1
        · rw [if_pos hcond]
          exact graphPairs_setRel st.1 p pr.1 r
        · rw [if_neg hcond]
    · rw [if_neg htrio]

theorem asnFold_graphPairs (look : String → Option UttRecord) :
    ∀ (l : List (String × LoadedAnn)) (st : Finset (String × String × String) × Nat × Nat),
      graphPairs ((l.foldl (asnStep look) st).1) = graphPairs st.1 := by
  intro l
  induction l with
  | nil => intro st; rfl
  | cons pr l ih =>
    intro st
    rw [List.foldl_cons, ih, asnStep_graphPairs]

theorem setRel_quad (E : Finset (String × String × String)) (p c r : String)
    (hE : ∀ e ∈ E, quadRel e.2.2)
    (hr : r = "attack" ∨ r = "support" ∨ r = "neutral") :
    ∀ e ∈ setRel E p c r, quadRel e.2.2 := by
  intro e he
  rw [setRel, Finset.mem_image] at he
  obtain ⟨a, ha, rfl⟩ := he
  by_cases h : a.1 = p ∧ a.2.1 = c
  · rw [if_pos h]; exact Or.inr hr
  · rw [if_neg h]; exact hE a ha

theorem asnStep_quad (look : String → Option UttRecord)
    (st : Finset (String × String × String) × Nat × Nat) (pr : String × LoadedAnn)
    (h : ∀ e ∈ st.1, quadRel e.2.2) :
    ∀ e ∈ (asnStep look st pr).1, quadRel e.2.2 := by
  unfold asnStep
  cases pr.2.reply_relation with
  | none => exact h
  | some r =>
    dsimp only
    by_cases htrio : r = "attack" ∨ r = "support" ∨ r = "neutral"
    · rw [if_pos htrio]
      cases ((look pr.1).bind UttRecord.replyTo).map pyStr with
      | none => exact h
      | some p =>
        dsimp only
        by_cases hcond : p ≠ "" ∧ (p, pr.1) ∈ graphPairs st.1
        · rw [if_pos hcond]
          exact setRel_quad st.1 p pr.1 r h htrio
        · rw [if_neg hcond]; exact h
    · rw [if_neg htrio]; exact h

theorem asnFold_quad (look : String → Option UttRecord) :
    ∀ (l : List (String × LoadedAnn)) (st : Finset (String × String × String) × Nat × Nat),
      (∀ e ∈ st.1, quadRel e.2.2) →
      ∀ e ∈ ((l.foldl (asnStep look) st).1), quadRel e.2.2 := by
  intro l
  induction l with
  | nil => intro st h; exact h
  | cons pr l ih =>
    intro st h
    rw [List.foldl_cons]
    exact ih _ (asnStep_quad look st pr h)

theorem setRel_edgeFun (E : Finset (String × String × String)) (p c r : String)
    (h : edgeFun E) : edgeFun (setRel E p c r) := by
  intro e₁ h₁ e₂ h₂ hp hc
  rw [setRel, Finset.mem_image] at h₁ h₂
  obtain ⟨a, ha, rfl⟩ := h₁
  obtain ⟨b, hb, rfl⟩ := h₂
  rw [setRelFun_fst, setRelFun_fst] at hp
  rw [setRelFun_child, setRelFun_child] at hc
  rw [h a ha b hb hp hc]

theorem asnStep_edgeFun (look : String → Option UttRecord)
    (st : Finset (String × String × String) × Nat × Nat) (pr : String × LoadedAnn)
    (h : edgeFun st.1) : edgeFun (asnStep look st pr).1 := by
  unfold asnStep
  cases pr.2.reply_relation with
  | none => exact h
  | some r =>
    dsimp only
    by_cases htrio : r = "attack" ∨ r = "support" ∨ r = "neutral"
    · rw [if_pos htrio]
      cases ((look pr.1).bind UttRecord.replyTo).map pyStr with
      | none => exact h
      | some p =>
        dsimp only
        by_cases hcond : p ≠ "" ∧ (p, pr.1) ∈ graphPairs st.1
        · rw [if_pos hcond]
          exact setRel_edgeFun st.1 p pr.1 r h
        · rw [if_neg hcond]; exact h
    · rw [if_neg htrio]; exact h

theorem asnFold_edgeFun (look : String → Option UttRecord) :
    ∀ (l : List (String × LoadedAnn)) (st : Finset (String × String × String) × Nat × Nat),
      edgeFun st.1 → edgeFun ((l.foldl (asnStep look) st).1) := by
  intro l
  induction l with
  | nil => intro st h; exact h
  | cons pr l ih =>
    intro st h
    rw [List.foldl_cons]
    exact ih _ (asnStep_edgeFun look st pr h)

theorem initialEdges_edgeFun (raw : List LoadedAnn) (pairs : List (String × UttRecord)) :
    edgeFun (initialEdges raw pairs) := by
  intro e₁ h₁ e₂ h₂ hp hc
  rw [initialEdges, Finset.mem_image] at h₁ h₂
  obtain ⟨a, _, rfl⟩ := h₁
  obtain ⟨b, _, rfl⟩ := h₂
  simp only at hp hc
  rw [hp, hc]

theorem setRel_child_keep (E : Finset (String × String × String)) (p c r : String)
    (e : String × String × String) (he : e ∈ setRel E p c r) (hne : e.2.1 ≠ c) :
    e ∈ E := by
  rw [setRel, Finset.mem_image] at he
  obtain ⟨a, ha, rfl⟩ := he
  by_cases h : a.1 = p ∧ a.2.1 = c
  · rw [if_pos h] at hne ⊢
    exact absurd rfl hne
  · rw [if_neg h] at hne ⊢
    exact ha

theorem asnStep_child_keep (look : String → Option UttRecord)
    (st : Finset (String × String × String) × Nat × Nat) (pr : String × LoadedAnn)
    (c : String) (hne : pr.1 ≠ c) :
    ∀ e ∈ (asnStep look st pr).1, e.2.1 = c → e ∈ st.1 := by
  unfold asnStep
  cases pr.2.reply_relation with
  | none => intro e he _; exact he
  | some r =>
    dsimp only
    by_cases htrio : r = "attack" ∨ r = "support" ∨ r = "neutral"
    · rw [if_pos htrio]
      cases ((look pr.1).bind UttRecord.replyTo).map pyStr with
      | none => intro e he _; exact he
      | some p =>
        dsimp only
        by_cases hcond : p ≠ "" ∧ (p, pr.1) ∈ graphPairs st.1
        · rw [if_pos hcond]
          intro e he hec
          exact setRel_child_keep st.1 p pr.1 r e he (by rw [hec]; exact fun hx => hne hx.symm)
        · rw [if_neg hcond]; intro e he _; exact he
    · rw [if_neg htrio]; intro e he _; exact he

theorem asnStep_skip (look : String → Option UttRecord)
    (st : Finset (String × String × String) × Nat × Nat) (pr : String × LoadedAnn)
    (h : ∀ r, pr.2.reply_relation = some r →
      ¬(r = "attack" ∨ r = "support" ∨ r = "neutral")) :
    asnStep look st pr = st := by
  unfold asnStep
  cases hrel : pr.2.reply_relation with
  | none => rfl
  | some r =>
    dsimp only
    rw [if_neg (h r hrel)]

theorem asnFold_child_reply (look : String → Option UttRecord) :
    ∀ (l : List (String × LoadedAnn)) (st : Finset (String × String × String) × Nat × Nat)
      (c : String),
      (∀ pr ∈ l, pr.1 = c → ∀ r, pr.2.reply_relation = some r →
        ¬(r = "attack" ∨ r = "support" ∨ r = "neutral")) →
      ∀ e ∈ (l.foldl (asnStep look) st).1, e.2.1 = c → e ∈ st.1 := by
  intro l
  induction l with
  | nil => intro st c _ e he _; exact he
  | cons pr l ih =>
    intro st c hskip e he hec
    rw [List.foldl_cons] at he
    have he' := ih (asnStep look st pr) c
      (fun q hq => hskip q (List.mem_cons_of_mem pr hq)) e he hec
    by_cases hc : pr.1 = c
    · rw [asnStep_skip look st pr (hskip pr (List.mem_cons_self pr l) hc)] at he'
      exact he'
    · exact asnStep_child_keep look st pr c hc e he' hec

/-! ### Counter characterizations and preparation lemmas -/

theorem asnFold_missing (look : String → Option UttRecord) (S : Finset (String × String)) :
    ∀ (l : List (String × LoadedAnn)) (E : Finset (String × String × String)) (a m : Nat),
      graphPairs E = S →
      (l.foldl (asnStep look) (E, a, m)).2.2 =
        m + (l.filter fun pr =>
          trioB pr.2.reply_relation && !(findsEdgeB look S pr.1)).length := by
  intro l
  induction l with
  | nil => intro E a m _; simp
  | cons pr l ih =>
    intro E a m hE
    rw [List.foldl_cons]
    cases hrel : pr.2.reply_relation with
    | none =>
      have hstep : asnStep look (E, a, m) pr = (E, a, m) := by
        unfold asnStep; rw [hrel]
      have hf : (trioB pr.2.reply_relation && !(findsEdgeB look S pr.1)) = false := by
        rw [hrel]; rfl
      rw [hstep, ih E a m hE]
      simp [List.filter_cons, hf]
    | some r =>
      by_cases htrio : r = "attack" ∨ r = "support" ∨ r = "neutral"
      · have htrioB : trioB pr.2.reply_relation = true := by
          rw [hrel]
          rcases htrio with h | h | h <;> simp [trioB, h]
        cases hpar : ((look pr.1).bind UttRecord.replyTo).map pyStr with
        | none =>
          have hstep : asnStep look (E, a, m) pr = (E, a, m + 1) := by
            unfold asnStep; rw [hrel]; dsimp only; rw [if_pos htrio, hpar]
          have hfind : findsEdgeB look S pr.1 = false := by
            rw [findsEdgeB, hpar]
          rw [hstep, ih E a (m + 1) hE]
          have ht : (trioB pr.2.reply_relation && !(findsEdgeB look S pr.1)) = true := by
            rw [htrioB, hfind]; rfl
          simp only [List.filter_cons, ht, if_pos, List.length_cons]
          omega
        | some p =>
          by_cases hcond : p ≠ "" ∧ (p, pr.1) ∈ graphPairs E
          · have hstep : asnStep look (E, a, m) pr = (setRel E p pr.1 r, a + 1, m) := by
              unfold asnStep; rw [hrel]; dsimp only; rw [if_pos htrio, hpar]; dsimp only
              rw [if_pos hcond]
            have hfind : findsEdgeB look S pr.1 = true := by
              rw [findsEdgeB, hpar]
              have h1 : (p == "") = false := by
                simp [hcond.1]
              have h2 : (p, pr.1) ∈ S := hE ▸ hcond.2
              simp [h1, h2]
            have hE2 : graphPairs (setRel E p pr.1 r) = S := by
              rw [graphPairs_setRel, hE]
            rw [hstep, ih _ (a + 1) m hE2]
            have hf : (trioB pr.2.reply_relation && !(findsEdgeB look S pr.1)) = false := by
              rw [htrioB, hfind]; rfl
            simp [List.filter_cons, hf]
          · have hstep : asnStep look (E, a, m) pr = (E, a, m + 1) := by
              unfold asnStep; rw [hrel]; dsimp only; rw [if_pos htrio, hpar]; dsimp only
              rw [if_neg hcond]
            have hfind : findsEdgeB look S pr.1 = false := by
              rw [findsEdgeB, hpar]
              rw [hE] at hcond
              by_cases hp : p = ""
              · simp [hp]
              · have h2 : (p, pr.1) ∉ S := fun hm => hcond ⟨hp, hm⟩
                simp [h2]
            rw [hstep, ih E a (m + 1) hE]
            have ht : (trioB pr.2.reply_relation && !(findsEdgeB look S pr.1)) = true := by
              rw [htrioB, hfind]; rfl
            simp only [List.filter_cons, ht, if_pos, List.length_cons]
            omega
      · have hstep : asnStep look (E, a, m) pr = (E, a, m) := by
          unfold asnStep; rw [hrel]; dsimp only; rw [if_neg htrio]
        have h1 : r ≠ "attack" := fun h => htrio (Or.inl h)
        have h2 : r ≠ "support" := fun h => htrio (Or.inr (Or.inl h))
        have h3 : r ≠ "neutral" := fun h => htrio (Or.inr (Or.inr h))
        have hf : (trioB pr.2.reply_relation && !(findsEdgeB look S pr.1)) = false := by
          rw [hrel]
          have : trioB (some r) = false := by simp [trioB, h1, h2, h3]
          rw [this]; rfl
        rw [hstep, ih E a m hE]
        simp [List.filter_cons, hf]

theorem mem_dictInsert {α : Type} (d : List (String × α)) (k : String) (v : α)
    (pr : String × α) (h : pr ∈ dictInsert d k v) : pr ∈ d ∨ pr = (k, v) := by
  rw [dictInsert] at h
  by_cases hany : (d.any fun p => p.1 == k) = true
  · rw [if_pos hany] at h
    rw [List.mem_map] at h
    obtain ⟨q, hq, rfl⟩ := h
    by_cases hfst : q.1 = k
    · rw [if_pos hfst]
      exact Or.inr rfl
    · rw [if_neg hfst]
      exact Or.inl hq
  · rw [if_neg hany] at h
    rcases List.mem_append.mp h with h | h
    · exact Or.inl h
    · exact Or.inr (List.mem_singleton.mp h)

theorem prepFold_mem (final : Finset String) :
    ∀ (raw : List LoadedAnn) (st : List (String × LoadedAnn) × Nat)
      (pr : String × LoadedAnn),
      pr ∈ (raw.foldl (prepStep final) st).1 →
      pr ∈ st.1 ∨ ∃ a ∈ raw, a.id ∈ final ∧ pr = (a.id, storedAnn a) := by
  intro raw
  induction raw with
  | nil => intro st pr h; exact Or.inl h
  | cons a raw ih =>
    intro st pr h
    rw [List.foldl_cons] at h
    rcases ih (prepStep final st a) pr h with h2 | ⟨b, hb, hbf, rfl⟩
    · unfold prepStep at h2
      by_cases hid : a.id ∈ final
      · rw [if_pos hid] at h2
        cases hmap : a.reply_relation.bind relation_map with
        | some m =>
          rw [hmap] at h2
          dsimp only at h2
          rcases mem_dictInsert st.1 a.id _ pr h2 with h3 | h3
          · exact Or.inl h3
          · refine Or.inr ⟨a, List.mem_cons_self a raw, hid, ?_⟩
            rw [h3]
            simp [storedAnn, hmap]
        | none =>
          rw [hmap] at h2
          dsimp only at h2
          rcases mem_dictInsert st.1 a.id _ pr h2 with h3 | h3
          · exact Or.inl h3
          · refine Or.inr ⟨a, List.mem_cons_self a raw, hid, ?_⟩
            rw [h3]
            simp [storedAnn, hmap]
      · rw [if_neg hid] at h2
        exact Or.inl h2
    · exact Or.inr ⟨b, List.mem_cons_of_mem a hb, hbf, rfl⟩

theorem prepAnn_mem (final : Finset String) (raw : List LoadedAnn)
    (pr : String × LoadedAnn) (h : pr ∈ (prepAnn raw final).1) :
    ∃ a ∈ raw, a.id ∈ final ∧ pr = (a.id, storedAnn a) := by
  rcases prepFold_mem final raw ([], 0) pr h with h2 | h2
  · cases h2
  · exact h2

theorem prepFold_count (final : Finset String) :
    ∀ (raw : List LoadedAnn) (st : List (String × LoadedAnn) × Nat),
      (raw.foldl (prepStep final) st).2 =
        st.2 + (raw.filter fun a =>
          decide (a.id ∈ final) && (a.reply_relation.bind relation_map).isNone).length := by
  intro raw
  induction raw with
  | nil => intro st; simp
  | cons a raw ih =>
    intro st
    rw [List.foldl_cons, ih]
    by_cases hid : a.id ∈ final
    · cases hmap : a.reply_relation.bind relation_map with
      | some m =>
        have hstep : prepStep final st a =
            (dictInsert st.1 a.id { a with reply_relation := some m }, st.2) := by
          unfold prepStep; rw [if_pos hid, hmap]
        have hf : (decide (a.id ∈ final) && (a.reply_relation.bind relation_map).isNone)
            = false := by
          rw [hmap]; simp
        rw [hstep]
        simp [List.filter_cons, hf]
      | none =>
        have hstep : prepStep final st a = (dictInsert st.1 a.id a, st.2 + 1) := by
          unfold prepStep; rw [if_pos hid, hmap]
        have ht : (decide (a.id ∈ final) && (a.reply_relation.bind relation_map).isNone)
            = true := by
          rw [hmap]; simp [hid]
        rw [hstep]
        simp only [List.filter_cons, ht, if_pos, List.length_cons]
        omega
    · have hstep : prepStep final st a = st := by
        unfold prepStep; rw [if_neg hid]
      have hf : (decide (a.id ∈ final) && (a.reply_relation.bind relation_map).isNone)
          = false := by
        simp [hid]
      rw [hstep]
      simp [List.filter_cons, hf]

theorem prepAnn_count (final : Finset String) (raw : List LoadedAnn) :
    (prepAnn raw final).2 =
      (raw.filter fun a =>
        decide (a.id ∈ final) && (a.reply_relation.bind relation_map).isNone).length := by
  rw [prepAnn, prepFold_count]
  simp

/-! ### Projections of the assembler and inversion of the driver -/

theorem assemble_graph_nodes (raw : List LoadedAnn) (pairs : List (String × UttRecord)) :
    (assemble raw pairs).graph.nodes = graphNodes raw pairs := rfl

theorem assemble_graph_edges (raw : List LoadedAnn) (pairs : List (String × UttRecord)) :
    (assemble raw pairs).graph.edges =
      ((prepAnn raw (finalNodeIds raw pairs)).1.foldl (asnStep (uttFor raw pairs))
        (initialEdges raw pairs, 0, 0)).1 := rfl

theorem assemble_invalid (raw : List LoadedAnn) (pairs : List (String × UttRecord)) :
    (assemble raw pairs).invalid_relation_count =
      (prepAnn raw (finalNodeIds raw pairs)).2 := rfl

theorem assemble_missing (raw : List LoadedAnn) (pairs : List (String × UttRecord)) :
    (assemble raw pairs).asn_missing_edge_count =
      ((prepAnn raw (finalNodeIds raw pairs)).1.foldl (asnStep (uttFor raw pairs))
        (initialEdges raw pairs, 0, 0)).2.2 := rfl

theorem buildOutcome_inv (annSrc : Source AnnItem) (uttSrc : Source UttItem)
    (raw : List LoadedAnn) (pairs : List (String × UttRecord)) (o : BuildOutcome)
    (hA : annLoad annSrc = some raw) (hU : uttLoad uttSrc = some pairs)
    (hB : buildOutcome annSrc uttSrc = some o) :
    o = assemble raw pairs := by
  unfold buildOutcome at hB
  rw [hA] at hB
  dsimp only at hB
  by_cases h1 : annIdSet raw = ∅
  · rw [if_pos h1] at hB; simp at hB
  · rw [if_neg h1] at hB
    rw [hU] at hB
    dsimp only at hB
    by_cases h2 : pairs = []
    · rw [if_pos h2] at hB; simp at hB
    · rw [if_neg h2] at hB
      exact (Option.some.inj hB).symm

theorem buildOutcome_graph (annSrc : Source AnnItem) (uttSrc : Source UttItem)
    (g : Graph) (hB : build_conversation_graph annSrc uttSrc = some g) :
    ∃ o, buildOutcome annSrc uttSrc = some o ∧ o.graph = g := by
  unfold build_conversation_graph at hB
  cases ho : buildOutcome annSrc uttSrc with
  | none =>
    rw [ho] at hB
    exact absurd hB (by simp)
  | some o =>
    rw [ho] at hB
    refine ⟨o, rfl, ?_⟩
    simpa using hB


/-! ### Claim theorems -/

/-- C1: whenever `build_conversation_graph` returns a graph, the graph's
node-id set equals `final_node_ids`, which is contained in the keys of the
loaded utterance mapping, and an id belongs to it exactly when it is an
annotated utterance present in the corpus, or the in-corpus reply-to parent
of such an utterance — no node is included for any other reason. -/
theorem final_nodes_only_required (annSrc : Source AnnItem) (uttSrc : Source UttItem)
    (raw : List LoadedAnn) (pairs : List (String × UttRecord)) (o : BuildOutcome)
    (hA : annLoad annSrc = some raw) (hU : uttLoad uttSrc = some pairs)
    (hB : buildOutcome annSrc uttSrc = some o) :
    nodeIdsOf o.graph ⊆ dictKeys pairs ∧
    nodeIdsOf o.graph = finalNodeIds raw pairs ∧
    ∀ n : String, n ∈ nodeIdsOf o.graph ↔
      ((n ∈ annIdSet raw ∧ n ∈ dictKeys pairs) ∨
        ∃ c, (c ∈ annIdSet raw ∧ c ∈ dictKeys pairs) ∧
          parentStr pairs c = some n ∧ n ∈ dictKeys pairs) := by
  have ho := buildOutcome_inv annSrc uttSrc raw pairs o hA hU hB
  subst ho
  have hn : nodeIdsOf (assemble raw pairs).graph = finalNodeIds raw pairs := by
    rw [nodeIdsOf, assemble_graph_nodes, image_fst_graphNodes]
  refine ⟨?_, hn, ?_⟩
  · rw [hn]
    exact finalNodeIds_subset raw pairs
  · intro n
    rw [hn, mem_finalNodeIds]
    constructor
    · rintro (h | ⟨c, hc, hps, hn2⟩)
      · rw [requiredNodeIds, Finset.mem_inter] at h
        exact Or.inl h
      · rw [requiredNodeIds, Finset.mem_inter] at hc
        exact Or.inr ⟨c, hc, hps, hn2⟩
    · rintro (h | ⟨c, hc, hps, hn2⟩)
      · exact Or.inl (Finset.mem_inter.mpr h)
      · exact Or.inr ⟨c, Finset.mem_inter.mpr hc, hps, hn2⟩

/-- C1 applied to the concrete example inputs. -/
theorem final_nodes_only_required_applied :
    annLoad exAnnSrc = some exRaw ∧ uttLoad exUttSrc = some exPairs ∧
    buildOutcome exAnnSrc exUttSrc = some (assemble exRaw exPairs) ∧
    (nodeIdsOf (assemble exRaw exPairs).graph ⊆ dictKeys exPairs ∧
      nodeIdsOf (assemble exRaw exPairs).graph = finalNodeIds exRaw exPairs ∧
      ∀ n : String, n ∈ nodeIdsOf (assemble exRaw exPairs).graph ↔
        ((n ∈ annIdSet exRaw ∧ n ∈ dictKeys exPairs) ∨
          ∃ c, (c ∈ annIdSet exRaw ∧ c ∈ dictKeys exPairs) ∧
            parentStr exPairs c = some n ∧ n ∈ dictKeys exPairs)) :=
  ⟨by decide, by decide, by decide,
    final_nodes_only_required exAnnSrc exUttSrc exRaw exPairs (assemble exRaw exPairs)
      (by decide) (by decide) (by decide)⟩

/-- C2: on the corpus {A: root, B: reply-to A, C: reply-to B} with the single
annotation {C: relation "a"}, the returned graph has exactly the node set
{B, C} and the single edge (B, C) with relation "attack"; node A is absent
and B has no incoming edge. -/
theorem example_corpus_graph :
    (build_conversation_graph exAnnSrc exUttSrc).isSome = true ∧
    nodeIdsOf (outGraph (buildOutcome exAnnSrc exUttSrc)) = {"B", "C"} ∧
    (outGraph (buildOutcome exAnnSrc exUttSrc)).edges = {("B", "C", "attack")} ∧
    ¬ "A" ∈ nodeIdsOf (outGraph (buildOutcome exAnnSrc exUttSrc)) ∧
    (outGraph (buildOutcome exAnnSrc exUttSrc)).edges.filter (fun e => e.2.1 = "B")
      = ∅ := by
  decide

/-- C6 (code divergence): a mapping item without an id is skipped and the rest
of the list is still loaded, but a NON-mapping item is not skipped —
`item.get('id')` raises before the `isinstance` check, the broad handler turns
it into a fatal `None`, and the whole build returns no graph even though a
valid annotation follows in the same list (the same inputs without the bad
item do produce a graph). -/
theorem nondict_item_aborts_load :
    loadAnnList [AnnItem.dict { id? := none, reply_relation := some "a", reply_to_text := none }, AnnItem.dict { id? := some (.s "C"), reply_relation := some "a", reply_to_text := none }] =
      some [{ id := "C", reply_relation := some "a", reply_to_text := none }] ∧
    loadAnnList [AnnItem.nondict, AnnItem.dict { id? := some (.s "C"), reply_relation := some "a", reply_to_text := none }] = none ∧
    build_conversation_graph mixedAnnSrc exUttSrc = none ∧
    build_conversation_graph exAnnSrc exUttSrc ≠ none := by
  decide

/-- C7: if the annotation source decodes but yields zero annotation ids —
including a non-list decode, which is treated as an empty annotation list —
the pipeline aborts and `build_conversation_graph` returns no graph. -/
theorem zero_ann_ids_abort (annSrc : Source AnnItem) (uttSrc : Source UttItem)
    (raw : List LoadedAnn) (hA : annLoad annSrc = some raw)
    (hE : annIdSet raw = ∅) :
    build_conversation_graph annSrc uttSrc = none := by
  unfold build_conversation_graph buildOutcome
  rw [hA]
  dsimp only
  rw [if_pos hE]
  rfl

/-- C7 applied: a non-list annotation file decodes to the empty annotation
list, yields no ids, and the pipeline returns no graph. -/
theorem zero_ann_ids_abort_applied :
    annLoad (Source.nonList : Source AnnItem) = some [] ∧
    annIdSet [] = ∅ ∧
    build_conversation_graph Source.nonList exUttSrc = none :=
  ⟨by decide, by decide,
    zero_ann_ids_abort Source.nonList exUttSrc [] (by decide) (by decide)⟩


theorem assemble_edges_spec (raw : List LoadedAnn) (pairs : List (String × UttRecord)) :
    graphPairs (assemble raw pairs).graph.edges = edgePairSet raw pairs ∧
    (∀ p c r : String, (p, c, r) ∈ (assemble raw pairs).graph.edges →
      parentStr pairs c = some p ∧ p ∈ finalNodeIds raw pairs ∧
        c ∈ finalNodeIds raw pairs) ∧
    (∀ c p : String, c ∈ finalNodeIds raw pairs → parentStr pairs c = some p →
      p ∈ finalNodeIds raw pairs → ∃ r, (p, c, r) ∈ (assemble raw pairs).graph.edges) ∧
    (∀ e₁ ∈ (assemble raw pairs).graph.edges, ∀ e₂ ∈ (assemble raw pairs).graph.edges,
      e₁.2.1 = e₂.2.1 → e₁ = e₂) ∧
    (∀ c : String, (∀ p, parentStr pairs c = some p → p ∉ finalNodeIds raw pairs) →
      ∀ e ∈ (assemble raw pairs).graph.edges, e.2.1 ≠ c) := by
  have hpairs : graphPairs (assemble raw pairs).graph.edges = edgePairSet raw pairs := by
    rw [assemble_graph_edges, asnFold_graphPairs]
    exact graphPairs_initialEdges raw pairs
  have hchar : ∀ p c r : String, (p, c, r) ∈ (assemble raw pairs).graph.edges →
      parentStr pairs c = some p ∧ p ∈ finalNodeIds raw pairs ∧
        c ∈ finalNodeIds raw pairs := by
    intro p c r he
    have hpc : (p, c) ∈ graphPairs (assemble raw pairs).graph.edges :=
      Finset.mem_image.mpr ⟨(p, c, r), he, rfl⟩
    rw [hpairs] at hpc
    obtain ⟨h1, h2, h3⟩ := (mem_edgePairSet raw pairs p c).mp hpc
    exact ⟨h2, h3, h1⟩
  refine ⟨hpairs, hchar, ?_, ?_, ?_⟩
  · intro c p hc hps hp
    have hpc : (p, c) ∈ graphPairs (assemble raw pairs).graph.edges := by
      rw [hpairs]
      exact (mem_edgePairSet raw pairs p c).mpr ⟨hc, hps, hp⟩
    obtain ⟨e, he, hpair⟩ := Finset.mem_image.mp hpc
    rw [Prod.mk.injEq] at hpair
    obtain ⟨h1, h2⟩ := hpair
    refine ⟨e.2.2, ?_⟩
    have : (p, c, e.2.2) = e := by rw [← h1, ← h2]
    rw [this]
    exact he
  · have hfun : edgeFun (assemble raw pairs).graph.edges := by
      rw [assemble_graph_edges]
      exact asnFold_edgeFun (uttFor raw pairs) _ _ (initialEdges_edgeFun raw pairs)
    intro e₁ h₁ e₂ h₂ hc
    have he₁ := hchar e₁.1 e₁.2.1 e₁.2.2 h₁
    have he₂ := hchar e₂.1 e₂.2.1 e₂.2.2 h₂
    have hp : e₁.1 = e₂.1 := by
      have q₁ := he₁.1
      have q₂ := he₂.1
      rw [hc] at q₁
      rw [q₁] at q₂
      exact Option.some.inj q₂
    exact hfun e₁ h₁ e₂ h₂ hp hc
  · intro c hno e he hec
    have := hchar e.1 e.2.1 e.2.2 he
    rw [hec] at this
    exact hno e.1 this.1 this.2.1

/-- C5: the final edge set has exactly the `(parent, child)` pairs in which
the child is a final node whose stored parent reference coerces to a final
node: every edge is created in `initialEdges` with relation "reply" before
annotations are applied; for every edge `(p, c, r)` the coerced parent
reference of `c` is `p` and both endpoints are final nodes; each qualifying
child has exactly one incoming edge; and a node whose parent reference is
absent or resolves outside the final node set has no incoming edge. -/
theorem edge_construction (annSrc : Source AnnItem) (uttSrc : Source UttItem)
    (raw : List LoadedAnn) (pairs : List (String × UttRecord)) (o : BuildOutcome)
    (hA : annLoad annSrc = some raw) (hU : uttLoad uttSrc = some pairs)
    (hB : buildOutcome annSrc uttSrc = some o) :
    initialEdges raw pairs =
      (edgePairSet raw pairs).image (fun pc => (pc.1, pc.2, "reply")) ∧
    graphPairs o.graph.edges = edgePairSet raw pairs ∧
    (∀ p c r : String, (p, c, r) ∈ o.graph.edges →
      parentStr pairs c = some p ∧ p ∈ finalNodeIds raw pairs ∧
        c ∈ finalNodeIds raw pairs) ∧
    (∀ c p : String, c ∈ finalNodeIds raw pairs → parentStr pairs c = some p →
      p ∈ finalNodeIds raw pairs → ∃ r, (p, c, r) ∈ o.graph.edges) ∧
    (∀ e₁ ∈ o.graph.edges, ∀ e₂ ∈ o.graph.edges, e₁.2.1 = e₂.2.1 → e₁ = e₂) ∧
    (∀ c : String, (∀ p, parentStr pairs c = some p → p ∉ finalNodeIds raw pairs) →
      ∀ e ∈ o.graph.edges, e.2.1 ≠ c) := by
  have ho := buildOutcome_inv annSrc uttSrc raw pairs o hA hU hB
  subst ho
  obtain ⟨h1, h2, h3, h4, h5⟩ := assemble_edges_spec raw pairs
  exact ⟨rfl, h1, h2, h3, h4, h5⟩

/-- C5 applied to the concrete example inputs. -/
theorem edge_construction_applied :
    annLoad exAnnSrc = some exRaw ∧ uttLoad exUttSrc = some exPairs ∧
    buildOutcome exAnnSrc exUttSrc = some (assemble exRaw exPairs) ∧
    (initialEdges exRaw exPairs =
      (edgePairSet exRaw exPairs).image (fun pc => (pc.1, pc.2, "reply")) ∧
    graphPairs (assemble exRaw exPairs).graph.edges = edgePairSet exRaw exPairs ∧
    (∀ p c r : String, (p, c, r) ∈ (assemble exRaw exPairs).graph.edges →
      parentStr exPairs c = some p ∧ p ∈ finalNodeIds exRaw exPairs ∧
        c ∈ finalNodeIds exRaw exPairs) ∧
    (∀ c p : String, c ∈ finalNodeIds exRaw exPairs → parentStr exPairs c = some p →
      p ∈ finalNodeIds exRaw exPairs →
        ∃ r, (p, c, r) ∈ (assemble exRaw exPairs).graph.edges) ∧
    (∀ e₁ ∈ (assemble exRaw exPairs).graph.edges,
      ∀ e₂ ∈ (assemble exRaw exPairs).graph.edges, e₁.2.1 = e₂.2.1 → e₁ = e₂) ∧
    (∀ c : String,
      (∀ p, parentStr exPairs c = some p → p ∉ finalNodeIds exRaw exPairs) →
      ∀ e ∈ (assemble exRaw exPairs).graph.edges, e.2.1 ≠ c)) :=
  ⟨by decide, by decide, by decide,
    edge_construction exAnnSrc exUttSrc exRaw exPairs (assemble exRaw exPairs)
      (by decide) (by decide) (by decide)⟩

/-- C8 counterexample: on the one-utterance corpus whose record S replies to
itself, with S annotated, the returned graph contains the self-loop edge
(S, S) — a directed cycle — so the graph is not always acyclic. -/
theorem self_reply_self_loop :
    (build_conversation_graph selfAnnSrc selfUttSrc).isSome = true ∧
    ("S", "S", "attack") ∈ (outGraph (buildOutcome selfAnnSrc selfUttSrc)).edges := by
  decide

/-- C8 amended: the graph is forest-like in that every node has at most one
incoming edge and every edge follows its child's stored reply-to reference
(so a directed cycle can only reflect a cycle already present in the
reply-to references, and the graph need not be connected); in particular if
no final node replies to itself the graph has no self-loop, but a
self-replying record does produce one. -/
theorem edges_follow_reply_to (annSrc : Source AnnItem) (uttSrc : Source UttItem)
    (raw : List LoadedAnn) (pairs : List (String × UttRecord)) (o : BuildOutcome)
    (hA : annLoad annSrc = some raw) (hU : uttLoad uttSrc = some pairs)
    (hB : buildOutcome annSrc uttSrc = some o) :
    (∀ e₁ ∈ o.graph.edges, ∀ e₂ ∈ o.graph.edges, e₁.2.1 = e₂.2.1 → e₁ = e₂) ∧
    (∀ p c r : String, (p, c, r) ∈ o.graph.edges → parentStr pairs c = some p) ∧
    ((∀ c ∈ finalNodeIds raw pairs, parentStr pairs c ≠ some c) →
      ∀ p c r : String, (p, c, r) ∈ o.graph.edges → p ≠ c) := by
  have ho := buildOutcome_inv annSrc uttSrc raw pairs o hA hU hB
  subst ho
  obtain ⟨h1, h2, h3, h4, h5⟩ := assemble_edges_spec raw pairs
  refine ⟨h4, fun p c r he => (h2 p c r he).1, ?_⟩
  intro hns p c r he hpc
  obtain ⟨hps, _, hcf⟩ := h2 p c r he
  rw [hpc] at hps
  exact hns c hcf hps

/-- C3 counterexample: on {B: root, C: reply-to B} with the single annotation
{C: "attack"}, the raw code "attack" is outside {a, s, n} — `relation_map`
rejects it and the invalid-relation counter is 1 — yet the annotation is not
inert: the edge (B, C) ends up carrying its raw code "attack" instead of
"reply", so it did participate in relation assignment. -/
theorem invalid_code_reaches_edge :
    relation_map "attack" = none ∧
    outInvalid (buildOutcome atkAnnSrc bcUttSrc) = 1 ∧
    ("B", "C", "attack") ∈ (outGraph (buildOutcome atkAnnSrc bcUttSrc)).edges ∧
    ("B", "C", "reply") ∉ (outGraph (buildOutcome atkAnnSrc bcUttSrc)).edges := by
  decide

/-- C3 amended: every edge relation is one of reply/attack/support/neutral;
`invalid_relation_count` counts exactly the loaded annotations whose target
is a final node and whose raw code fails `relation_map`; and an annotation
whose raw code is outside {a, s, n} AND outside {attack, support, neutral} is
inert — if every annotation of a target has such a code, every edge into that
target keeps relation "reply".  (A raw code equal to a full name
attack/support/neutral is counted invalid but is nevertheless applied.) -/
theorem invalid_code_accounting (annSrc : Source AnnItem) (uttSrc : Source UttItem)
    (raw : List LoadedAnn) (pairs : List (String × UttRecord)) (o : BuildOutcome)
    (hA : annLoad annSrc = some raw) (hU : uttLoad uttSrc = some pairs)
    (hB : buildOutcome annSrc uttSrc = some o) :
    (∀ e ∈ o.graph.edges, quadRel e.2.2) ∧
    o.invalid_relation_count =
      (raw.filter fun a =>
        decide (a.id ∈ finalNodeIds raw pairs) &&
          (a.reply_relation.bind relation_map).isNone).length ∧
    (∀ c : String,
      (∀ a ∈ raw, a.id = c → ∀ r, a.reply_relation = some r →
        relation_map r = none ∧ r ≠ "attack" ∧ r ≠ "support" ∧ r ≠ "neutral") →
      ∀ e ∈ o.graph.edges, e.2.1 = c → e.2.2 = "reply") := by
  have ho := buildOutcome_inv annSrc uttSrc raw pairs o hA hU hB
  subst ho
  refine ⟨?_, ?_, ?_⟩
  · rw [assemble_graph_edges]
    refine asnFold_quad (uttFor raw pairs) _ _ ?_
    intro e he
    have he2 : e ∈ initialEdges raw pairs := he
    have hchar := (mem_initialEdges raw pairs e.1 e.2.1 e.2.2).mp he2
    exact Or.inl hchar.2
  · rw [assemble_invalid, prepAnn_count]
  · intro c hc e he hec
    rw [assemble_graph_edges] at he
    have hskip : ∀ pr ∈ (prepAnn raw (finalNodeIds raw pairs)).1, pr.1 = c →
        ∀ r, pr.2.reply_relation = some r →
          ¬(r = "attack" ∨ r = "support" ∨ r = "neutral") := by
      intro pr hpr hprc r hrel
      obtain ⟨a, ha, haf, heq⟩ := prepAnn_mem _ raw pr hpr
      have haid : a.id = c := by rw [heq] at hprc; exact hprc
      have hbad := hc a ha haid
      have hbind : a.reply_relation.bind relation_map = none := by
        cases har : a.reply_relation with
        | none => rfl
        | some q =>
          exact (hbad q har).1
      have hstored : (storedAnn a).reply_relation = a.reply_relation := by
        unfold storedAnn
        rw [hbind]
      have hpr2 : pr.2.reply_relation = a.reply_relation := by
        rw [heq]
        exact hstored
      rw [hpr2] at hrel
      rintro (h | h | h)
      · exact (hbad r hrel).2.1 h
      · exact (hbad r hrel).2.2.1 h
      · exact (hbad r hrel).2.2.2 h
    have hkeep := asnFold_child_reply (uttFor raw pairs) _ _ c hskip e he hec
    have he2 : e ∈ initialEdges raw pairs := hkeep
    exact ((mem_initialEdges raw pairs e.1 e.2.1 e.2.2).mp he2).2

/-- C3 amended, applied to the unknown relation code "x" on the two-utterance
corpus. -/
theorem invalid_code_accounting_applied :
    annLoad xAnnSrc = some xRaw ∧ uttLoad bcUttSrc = some bcPairs ∧
    buildOutcome xAnnSrc bcUttSrc = some (assemble xRaw bcPairs) ∧
    ((∀ e ∈ (assemble xRaw bcPairs).graph.edges, quadRel e.2.2) ∧
    (assemble xRaw bcPairs).invalid_relation_count =
      (xRaw.filter fun a =>
        decide (a.id ∈ finalNodeIds xRaw bcPairs) &&
          (a.reply_relation.bind relation_map).isNone).length ∧
    (∀ c : String,
      (∀ a ∈ xRaw, a.id = c → ∀ r, a.reply_relation = some r →
        relation_map r = none ∧ r ≠ "attack" ∧ r ≠ "support" ∧ r ≠ "neutral") →
      ∀ e ∈ (assemble xRaw bcPairs).graph.edges, e.2.1 = c → e.2.2 = "reply")) :=
  ⟨by decide, by decide, by decide,
    invalid_code_accounting xAnnSrc bcUttSrc xRaw bcPairs (assemble xRaw bcPairs)
      (by decide) (by decide) (by decide)⟩

/-- C4 counterexample: utterance D carries an EMPTY metadata mapping and a
`!DELTA` command in its text; the claimed policy (check only under a
NON-empty metadata mapping) yields false, yet the emitted node's delta
attribute is "True" — the code evaluates the check for any mapping-typed
metadata, empty included. -/
theorem delta_checked_with_empty_meta :
    uttEmptyMeta.meta = some (MetaVal.dict 0) ∧
    deltaClaimed uttEmptyMeta = false ∧
    pyStrBool (deltaClaimed uttEmptyMeta) = "False" ∧
    nodeDeltas (outGraph (buildOutcome dAnnSrc emptyMetaUttSrc)) "D" = {"True"} := by
  decide

/-- C4 amended: a selected node's delta attribute is the Python string form of
the flag that is true exactly when the record's `meta` value is mapping-typed
(possibly empty) and the text contains the delta glyph or the
case-insensitive substring `!delta`; absent or non-mapping metadata gives
"False" regardless of the text. -/
theorem delta_policy (annSrc : Source AnnItem) (uttSrc : Source UttItem)
    (raw : List LoadedAnn) (pairs : List (String × UttRecord)) (o : BuildOutcome)
    (hA : annLoad annSrc = some raw) (hU : uttLoad uttSrc = some pairs)
    (hB : buildOutcome annSrc uttSrc = some o) :
    ∀ (nid : String) (a : NodeAttrs), (nid, a) ∈ o.graph.nodes →
      ∃ u, lastVal pairs nid = some u ∧
        a.delta = pyStrBool (deltaAwarded u) ∧
        (a.delta = "True" ↔
          ((∃ n, u.meta = some (MetaVal.dict n)) ∧
            ((u.text.getD "").toList.contains (Char.ofNat 8710) = true ∨
              hasSub "!delta".toList ((u.text.getD "").toList.map Char.toLower)
                = true))) := by
  have ho := buildOutcome_inv annSrc uttSrc raw pairs o hA hU hB
  subst ho
  intro nid a hmem
  rw [assemble_graph_nodes] at hmem
  obtain ⟨hf, u, hu, rfl⟩ := (mem_graphNodes raw pairs nid a).mp hmem
  refine ⟨u, hu, rfl, ?_⟩
  show pyStrBool (deltaAwarded u) = "True" ↔ _
  have hps : ∀ b : Bool, (pyStrBool b = "True") ↔ (b = true) := by
    intro b
    cases b with
    | true => exact iff_of_true rfl rfl
    | false => exact iff_of_false (by decide) (by decide)
  rw [hps]
  unfold deltaAwarded
  cases hm : u.meta with
  | none => simp
  | some mv =>
    cases mv with
    | dict n => simp [Bool.or_eq_true]
    | other => simp

/-- C4 amended, applied to the corpus holding the empty-meta record D. -/
theorem delta_policy_applied :
    annLoad dAnnSrc = some dRaw ∧ uttLoad emptyMetaUttSrc = some emptyMetaPairs ∧
    buildOutcome dAnnSrc emptyMetaUttSrc = some (assemble dRaw emptyMetaPairs) ∧
    (∀ (nid : String) (a : NodeAttrs), (nid, a) ∈ (assemble dRaw emptyMetaPairs).graph.nodes →
      ∃ u, lastVal emptyMetaPairs nid = some u ∧
        a.delta = pyStrBool (deltaAwarded u) ∧
        (a.delta = "True" ↔
          ((∃ n, u.meta = some (MetaVal.dict n)) ∧
            ((u.text.getD "").toList.contains (Char.ofNat 8710) = true ∨
              hasSub "!delta".toList ((u.text.getD "").toList.map Char.toLower)
                = true)))) :=
  ⟨by decide, by decide, by decide,
    delta_policy dAnnSrc emptyMetaUttSrc dRaw emptyMetaPairs
      (assemble dRaw emptyMetaPairs) (by decide) (by decide) (by decide)⟩

/-- C10 counterexample: the annotation of root C has raw code "attack", which
does not map through `relation_map` (the invalid counter is 1), yet the
missing-edge counter is also 1 — the binding phase did not skip it before
resolving its parent, because the stored value passes the full-name check. -/
theorem unmapped_code_missing_edge :
    relation_map "attack" = none ∧
    outInvalid (buildOutcome atkAnnSrc rootOnlyUttSrc) = 1 ∧
    outMissing (buildOutcome atkAnnSrc rootOnlyUttSrc) = 1 := by
  decide

/-- C10 amended: an entry whose STORED relation value fails the
attack/support/neutral membership check is skipped by the binding loop before
its parent is resolved (the step is the identity); consequently the
missing-edge counter counts exactly the prepared annotations whose stored
value passes that check but whose parent reference is absent, empty, or has
no corresponding edge.  A raw code equal to a full name — invalid for
`relation_map` — still passes the stored-value check and can be counted. -/
theorem missing_edge_count_characterization (annSrc : Source AnnItem)
    (uttSrc : Source UttItem) (raw : List LoadedAnn)
    (pairs : List (String × UttRecord)) (o : BuildOutcome)
    (hA : annLoad annSrc = some raw) (hU : uttLoad uttSrc = some pairs)
    (hB : buildOutcome annSrc uttSrc = some o) :
    (∀ (st : Finset (String × String × String) × Nat × Nat) (pr : String × LoadedAnn),
      trioB pr.2.reply_relation = false → asnStep (uttFor raw pairs) st pr = st) ∧
    o.asn_missing_edge_count =
      ((prepAnn raw (finalNodeIds raw pairs)).1.filter fun pr =>
        trioB pr.2.reply_relation &&
          !(findsEdgeB (uttFor raw pairs) (edgePairSet raw pairs) pr.1)).length := by
  have ho := buildOutcome_inv annSrc uttSrc raw pairs o hA hU hB
  subst ho
  constructor
  · intro st pr hf
    apply asnStep_skip
    intro r hrel
    rw [hrel] at hf
    rintro (h | h | h) <;> rw [h] at hf <;> simp [trioB] at hf
  · rw [assemble_missing,
      asnFold_missing (uttFor raw pairs) (edgePairSet raw pairs) _
        (initialEdges raw pairs) 0 0 (graphPairs_initialEdges raw pairs)]
    simp

/-- C10 amended, applied to the root-only corpus and the "attack"-coded
annotation. -/
theorem missing_edge_count_characterization_applied :
    annLoad atkAnnSrc = some atkRaw ∧ uttLoad rootOnlyUttSrc = some rootOnlyPairs ∧
    buildOutcome atkAnnSrc rootOnlyUttSrc = some (assemble atkRaw rootOnlyPairs) ∧
    ((∀ (st : Finset (String × String × String) × Nat × Nat) (pr : String × LoadedAnn),
      trioB pr.2.reply_relation = false → asnStep (uttFor atkRaw rootOnlyPairs) st pr = st) ∧
    (assemble atkRaw rootOnlyPairs).asn_missing_edge_count =
      ((prepAnn atkRaw (finalNodeIds atkRaw rootOnlyPairs)).1.filter fun pr =>
        trioB pr.2.reply_relation &&
          !(findsEdgeB (uttFor atkRaw rootOnlyPairs)
            (edgePairSet atkRaw rootOnlyPairs) pr.1)).length) :=
  ⟨by decide, by decide, by decide,
    missing_edge_count_characterization atkAnnSrc rootOnlyUttSrc atkRaw rootOnlyPairs
      (assemble atkRaw rootOnlyPairs) (by decide) (by decide) (by decide)⟩

/-- C8 amended, applied to the concrete example inputs. -/
theorem edges_follow_reply_to_applied :
    annLoad exAnnSrc = some exRaw ∧ uttLoad exUttSrc = some exPairs ∧
    buildOutcome exAnnSrc exUttSrc = some (assemble exRaw exPairs) ∧
    ((∀ e₁ ∈ (assemble exRaw exPairs).graph.edges,
        ∀ e₂ ∈ (assemble exRaw exPairs).graph.edges, e₁.2.1 = e₂.2.1 → e₁ = e₂) ∧
    (∀ p c r : String, (p, c, r) ∈ (assemble exRaw exPairs).graph.edges →
        parentStr exPairs c = some p) ∧
    ((∀ c ∈ finalNodeIds exRaw exPairs, parentStr exPairs c ≠ some c) →
        ∀ p c r : String, (p, c, r) ∈ (assemble exRaw exPairs).graph.edges → p ≠ c)) :=
  ⟨by decide, by decide, by decide,
    edges_follow_reply_to exAnnSrc exUttSrc exRaw exPairs (assemble exRaw exPairs)
      (by decide) (by decide) (by decide)⟩

/-- Folding set-union steps over a list lands on the bind of its element set. -/
theorem foldl_union_biUnion {β : Type} [DecidableEq β] (f : String → Finset β) :
    ∀ (l : List String) (A : Finset β),
      l.foldl (fun G x => G ∪ f x) A = A ∪ l.toFinset.biUnion f := by
  intro l
  induction l with
  | nil => intro A; simp
  | cons x l ih =>
    intro A
    rw [List.foldl_cons, ih, List.toFinset_cons, Finset.biUnion_insert,
      Finset.union_assoc]

/-- C9: the build is a pure function of its two inputs (two runs on identical
inputs return the same graph), and the node set and initial edge set produced
by the construction loops do not depend on the iteration order over the
node-id set: permuted enumerations agree, and any enumeration of
`final_node_ids` produces exactly the graph's node set and the initial
"reply" edge set. -/
theorem result_sets_order_independent (annSrc : Source AnnItem)
    (uttSrc : Source UttItem) (raw : List LoadedAnn)
    (pairs : List (String × UttRecord)) (l₁ l₂ : List String)
    (hperm : l₁.Perm l₂) (hcover : l₁.toFinset = finalNodeIds raw pairs) :
    build_conversation_graph annSrc uttSrc = build_conversation_graph annSrc uttSrc ∧
    addNodesLoop pairs l₁ = addNodesLoop pairs l₂ ∧
    addEdgesLoop raw pairs l₁ = addEdgesLoop raw pairs l₂ ∧
    addNodesLoop pairs l₁ = graphNodes raw pairs ∧
    addEdgesLoop raw pairs l₁ = initialEdges raw pairs := by
  have hnodes : ∀ l : List String,
      addNodesLoop pairs l = l.toFinset.biUnion (nodeEntry pairs) := by
    intro l
    rw [addNodesLoop, foldl_union_biUnion]
    exact Finset.empty_union _
  have hedges : ∀ l : List String,
      addEdgesLoop raw pairs l = l.toFinset.biUnion
        (fun nid => (edgePairEntry raw pairs nid).image fun pc => (pc.1, pc.2, "reply")) := by
    intro l
    rw [addEdgesLoop, foldl_union_biUnion]
    exact Finset.empty_union _
  refine ⟨rfl, ?_, ?_, ?_, ?_⟩
  · rw [hnodes, hnodes, List.toFinset_eq_of_perm l₁ l₂ hperm]
  · rw [hedges, hedges, List.toFinset_eq_of_perm l₁ l₂ hperm]
  · rw [hnodes, hcover]
    rfl
  · rw [hedges, hcover]
    exact Finset.biUnion_image.symm

/-- C9 applied: the two-element enumerations ["C", "B"] and ["B", "C"] of the
example's final node set yield the same node and edge sets, namely those of
the graph. -/
theorem result_sets_order_independent_applied :
    List.Perm ["C", "B"] ["B", "C"] ∧
    (["C", "B"] : List String).toFinset = finalNodeIds exRaw exPairs ∧
    (build_conversation_graph exAnnSrc exUttSrc
        = build_conversation_graph exAnnSrc exUttSrc ∧
      addNodesLoop exPairs ["C", "B"] = addNodesLoop exPairs ["B", "C"] ∧
      addEdgesLoop exRaw exPairs ["C", "B"] = addEdgesLoop exRaw exPairs ["B", "C"] ∧
      addNodesLoop exPairs ["C", "B"] = graphNodes exRaw exPairs ∧
      addEdgesLoop exRaw exPairs ["C", "B"] = initialEdges exRaw exPairs) :=
  ⟨by decide, by decide,
    result_sets_order_independent exAnnSrc exUttSrc exRaw exPairs ["C", "B"] ["B", "C"]
      (by decide) (by decide)⟩

end TreeBuilder
